import Mathlib

/-!
Shallow embedding of the hyperledger-fabric-voter chaincode (package
`auction`).  The repository contains several near-duplicate contract
variants; each is embedded separately and named after its source file:

  * `_main` — `smart-contract/thread.go` (public ballot, used-flag tokens);
  * `_v0`   — first document of the unnamed source file `part_000`
              (public ballot, existence-only tokens);
  * `_v0c`  — third document of `part_000` (public ballot with the
              `IssuedVotes` per-poll token index);
  * `_p1`   — the unnamed source file `part_001` (anonymous commit-reveal).

Ledger keys/values are modelled by inductive types; the platform context
(caller identity, MSP/collection id, transaction id, transient payload)
is passed to each operation as explicit parameters.  Every operation
returns the error it would surface (if any) together with the ordered
list of `PutState` writes it issued before returning; the platform's
atomic commit applies the writes only when the invocation succeeded.
-/

/-- Poll entity of the public-ballot variants (`Thread` in the source).
`options` is the JSON object `options`, modelled as an association list
whose order stands for one enumeration order of the Go map. -/
structure Thread where
  category : String
  theme : String
  description : String
  creator : String
  options : List (String × List String)
  winOption : List String
  status : String
deriving DecidableEq

/-- Poll entity of the anonymous variant (`AnonThread` in the source),
with the extra append-only `votes` list of commitment hashes. -/
structure AnonThread where
  category : String
  theme : String
  description : String
  creator : String
  votes : List String
  options : List (String × List String)
  winOption : List String
  status : String
deriving DecidableEq

/-- Payload of an anonymous vote (`AnonVote` in the source). -/
structure AnonVote where
  threadID : String
  txID : String
  option : String
  privateKey : String
deriving DecidableEq

/-- Close-time reveal payload (`EndData` in the source). -/
structure EndData where
  threadID : String
  keys : List String
  voteTxs : List String
deriving DecidableEq

/-- Ledger keys: plain state keys and composite keys built by
`CreateCompositeKey(objectType, attributes)`, which is injective and
never collides with plain keys. -/
inductive Key where
  | simple : String → Key
  | composite : String → List String → Key
deriving DecidableEq

/-- Ledger values.  `bytes` stands for raw marshalled bytes stored at
token keys (the source stores `json.Marshal(true) = "true"`,
`json.Marshal(false) = "false"`, or the literal bytes `"vote"` there and
inspects only presence and byte length).  `votesVal` is the marshalled
`IssuedVotes` index (transaction-id to used-flag map). -/
inductive LVal where
  | threadVal : Thread → LVal
  | anonThreadVal : AnonThread → LVal
  | bytes : String → LVal
  | votesVal : List (String × Bool) → LVal
deriving DecidableEq

/-- Errors surfaced by the operations, one constructor per distinct
`fmt.Errorf` return in the embedded code paths.  `indexOutOfRange`
models the Go runtime panic raised by an out-of-bounds slice index. -/
inductive VErr where
  | notEnoughArgs
  | indexOutOfRange
  | alreadyExist
  | threadNotFound
  | notCreator
  | notOpen
  | voteExists
  | voteNotFound
  | voteUsed
  | badOption
  | votesNotFound
deriving DecidableEq

/-- Result of one chaincode invocation: the error (if any) and the
ordered `PutState` write trace issued before the function returned. -/
structure OpRes where
  res : Option VErr
  writes : List (Key × LVal)
deriving DecidableEq

abbrev Ledger := Key → Option LVal

def emptyLedger : Ledger := fun _ => none

/-- Apply a write trace to the ledger, later writes overriding. -/
def applyWrites (st : Ledger) (ws : List (Key × LVal)) : Ledger :=
  ws.foldl (fun s kv => fun k => if k = kv.1 then some kv.2 else s k) st

/-- The platform's atomic commit point: the write set of an invocation
is applied only when the invocation returned without error; a failed
invocation leaves the ledger untouched. -/
def commitOp (st : Ledger) (r : OpRes) : Ledger :=
  match r.res with
  | none => applyWrites st r.writes
  | some _ => st

/-- Go map read `m[k]` on the association-list model. -/
def mapGet {α : Type} : List (String × α) → String → Option α
  | [], _ => none
  | kv :: rest, k => if kv.1 = k then some kv.2 else mapGet rest k

/-- Go map write `m[k] = v` on the association-list model. -/
def mapSet {α : Type} : List (String × α) → String → α → List (String × α)
  | [], k, v => [(k, v)]
  | kv :: rest, k, v => if kv.1 = k then (k, v) :: rest else kv :: mapSet rest k v

/-- Go `m[k] = append(m[k], v)` on a `map[string][]string`. -/
def mapAppend : List (String × List String) → String → String → List (String × List String)
  | [], k, v => [(k, [v])]
  | kv :: rest, k, v =>
    if kv.1 = k then (kv.1, kv.2 ++ [v]) :: rest else kv :: mapAppend rest k v

/-- Modelled from the spec: the repository's `contains` helper is not
under `src/`; per the spec a cast "fails with `InvalidOption` unless
`option` is one of the poll's fixed option keys", so `contains` is key
membership in the options map. -/
def containsOpt (m : List (String × List String)) (k : String) : Bool :=
  m.any (fun kv => kv.1 = k)

/-- The option map built at poll creation: every supplied label mapped
to an empty vote list (`threadOptions[option] = make([]string, 0)`). -/
def mkOptions (opts : List String) : List (String × List String) :=
  opts.foldl (fun m o => mapSet m o []) []

/-- `QueryThread`: read and unmarshal a public poll; `none` covers both
the absent-key and the unmarshal-failure paths. -/
def queryThread (st : Ledger) (threadID : String) : Option Thread :=
  match st (Key.simple threadID) with
  | some (LVal.threadVal t) => some t
  | _ => none

/-- `QueryAnonThread`: read and unmarshal an anonymous poll. -/
def queryAnonThread (st : Ledger) (threadID : String) : Option AnonThread :=
  match st (Key.simple threadID) with
  | some (LVal.anonThreadVal t) => some t
  | _ => none

/-! ## Winner selection (`EndThread` / `EndAnonThread` tally scan) -/

/-- One iteration of the winner-selection loop body: on a strictly
greater count the winners list is reset to the current label (the
source appends and then keeps only the last element), on an equal count
the label is appended. -/
def winnerStep (acc : Nat × List String) (kv : String × List String) : Nat × List String :=
  if kv.2.length > acc.1 then (kv.2.length, [kv.1])
  else if kv.2.length = acc.1 then (acc.1, acc.2 ++ [kv.1])
  else acc

/-- The winner-selection scan over one enumeration of the options map,
starting from `voteAmount = 0` and an empty winners list. -/
def winnerScan (opts : List (String × List String)) : List String :=
  (opts.foldl winnerStep (0, [])).2

/-- The maximum vote-list length over the enumerated options. -/
def maxVotes (opts : List (String × List String)) : Nat :=
  opts.foldl (fun m kv => max m kv.2.length) 0

/-! ## Commit-reveal matching (`EndAnonThread` triple loop) -/

/-- Innermost `for option := range thread.Options` pass of the reveal
loop for one fixed `(vote, tx, key)`: every option whose recomputed
commitment hash equals the stored commitment `vote` gets the synthetic
marker `"vote"` appended.  `hash` abstracts
`base64(sha256(json.Marshal(AnonVote)))`. -/
def stepKV (hash : AnonVote → String) (tid tx key vote : String)
    (opts : List (String × List String)) : List (String × List String) :=
  opts.map fun kv =>
    if hash ⟨tid, tx, kv.1, key⟩ = vote then (kv.1, kv.2 ++ ["vote"]) else kv

/-- The full reveal loop of `EndAnonThread`: for every stored
commitment, every revealed transaction id and every revealed secret,
run the per-option matching pass (loop nesting exactly as in the
source: commitments outermost, then transaction ids, then secrets,
then options). -/
def revealMatch (hash : AnonVote → String) (tid : String)
    (txs keys votes : List String)
    (opts : List (String × List String)) : List (String × List String) :=
  votes.foldl
    (fun acc vote =>
      txs.foldl
        (fun acc2 tx =>
          keys.foldl (fun acc3 key => stepKV hash tid tx key vote acc3) acc2)
        acc)
    opts

/-- Number of revealed secrets whose candidate payload for option `o`
and transaction id `tx` hashes to the stored commitment `vote`. -/
def keyMatches (hash : AnonVote → String) (tid tx : String) (keys : List String)
    (o vote : String) : Nat :=
  (keys.filter (fun key => hash ⟨tid, tx, o, key⟩ = vote)).length

/-- Number of `(tx, key)` pairs matching commitment `vote` at option `o`. -/
def txMatches (hash : AnonVote → String) (tid : String) (txs keys : List String)
    (o vote : String) : Nat :=
  (txs.map (fun tx => keyMatches hash tid tx keys o vote)).sum

/-- Number of `(vote, tx, key)` candidate triples, counted with
multiplicity over the supplied lists, whose recomputed hash matches
the stored commitment — the total increment option `o` receives. -/
def totalMatches (hash : AnonVote → String) (tid : String)
    (txs keys votes : List String) (o : String) : Nat :=
  (votes.map (fun vote => txMatches hash tid txs keys o vote)).sum

/-! ## Operations -/

/-- `CreateThread` (`thread.go`): argument extraction behind the
`len(args) < 4` guard, duplicate-id check, then a single write of the
fresh poll.  `args.get? 4 = none` corresponds to the Go runtime panic
on `args[4]`. -/
def CreateThread (st : Ledger) (args : List String) (clientID : String) : OpRes :=
  if args.length < 4 then ⟨some .notEnoughArgs, []⟩
  else
    match args.get? 1, args.get? 2, args.get? 3, args.get? 4 with
    | some threadID, some category, some theme, some description =>
      let options := args.drop 5
      match st (Key.simple threadID) with
      | some _ => ⟨some .alreadyExist, []⟩
      | none =>
        let t : Thread :=
          ⟨category, theme, description, clientID, mkOptions options, [], "open"⟩
        ⟨none, [(Key.simple threadID, LVal.threadVal t)]⟩
    | _, _, _, _ => ⟨some .indexOutOfRange, []⟩

/-- `CreateAnonThread` (`part_001`): identical argument handling, with
an empty commitments list in the fresh poll. -/
def CreateAnonThread (st : Ledger) (args : List String) (clientID : String) : OpRes :=
  if args.length < 4 then ⟨some .notEnoughArgs, []⟩
  else
    match args.get? 1, args.get? 2, args.get? 3, args.get? 4 with
    | some threadID, some category, some theme, some description =>
      let options := args.drop 5
      match st (Key.simple threadID) with
      | some _ => ⟨some .alreadyExist, []⟩
      | none =>
        let t : AnonThread :=
          ⟨category, theme, description, clientID, [], mkOptions options, [], "open"⟩
        ⟨none, [(Key.simple threadID, LVal.anonThreadVal t)]⟩
    | _, _, _, _ => ⟨some .indexOutOfRange, []⟩

/-- `CreateVote` (`thread.go`): creator-only, open-only token issuance;
the duplicate check looks up the composite key that already embeds the
fresh transaction id; on success stores `json.Marshal(true) = "true"`. -/
def CreateVote_main (st : Ledger) (clientID collection txID : String)
    (threadID userID : String) : OpRes :=
  match queryThread st threadID with
  | none => ⟨some .threadNotFound, []⟩
  | some t =>
    if t.creator ≠ clientID then ⟨some .notCreator, []⟩
    else if t.status ≠ "open" then ⟨some .notOpen, []⟩
    else
      match st (Key.composite "vote" [threadID, txID, collection, userID]) with
      | some _ => ⟨some .voteExists, []⟩
      | none =>
        ⟨none, [(Key.composite "vote" [threadID, txID, collection, userID],
                 LVal.bytes "true")]⟩

/-- `CreateVote` (`part_000`, `IssuedVotes` variant): no open-status
check; writes the token record first and only then reads, updates and
rewrites the poll's `IssuedVotes` index (an absent or unmarshallable
index errors after that first write). -/
def CreateVote_v0c (st : Ledger) (clientID collection txID : String)
    (threadID userID : String) : OpRes :=
  match queryThread st threadID with
  | none => ⟨some .threadNotFound, []⟩
  | some t =>
    if t.creator ≠ clientID then ⟨some .notCreator, []⟩
    else
      match st (Key.simple (threadID ++ "_votes")) with
      | some (LVal.votesVal votes) =>
        ⟨none, [(Key.composite "vote" [threadID, txID, collection, userID],
                 LVal.bytes "vote"),
                (Key.simple (threadID ++ "_votes"),
                 LVal.votesVal (mapSet votes txID false))]⟩
      | _ =>
        ⟨some .votesNotFound,
         [(Key.composite "vote" [threadID, txID, collection, userID],
           LVal.bytes "vote")]⟩

/-- `UseVote` (`thread.go`): open-only; the token at the composite key
must exist and its stored bytes must not have length 5
(`json.Marshal(false) = "false"`, the used marker); on success appends
the voter to the chosen option, rewrites the poll and overwrites the
token with the used marker. -/
def UseVote_main (st : Ledger) (collection userID : String)
    (threadID txID opt : String) : OpRes :=
  match queryThread st threadID with
  | none => ⟨some .threadNotFound, []⟩
  | some t =>
    if t.status ≠ "open" then ⟨some .notOpen, []⟩
    else
      match st (Key.composite "vote" [threadID, txID, collection, userID]) with
      | none => ⟨some .voteNotFound, []⟩
      | some (LVal.bytes data) =>
        if data.length = 5 then ⟨some .voteUsed, []⟩
        else if ¬ containsOpt t.options opt then ⟨some .badOption, []⟩
        else
          ⟨none, [(Key.simple threadID,
                   LVal.threadVal { t with options := mapAppend t.options opt userID }),
                  (Key.composite "vote" [threadID, txID, collection, userID],
                   LVal.bytes "false")]⟩
      | some _ => ⟨some .voteNotFound, []⟩

/-- `UseVote` (`part_000`, first document): open-only; checks only that
the token key exists — there is no used-flag check and the token is
never updated — then appends the voter and rewrites the poll. -/
def UseVote_plain (st : Ledger) (collection userID : String)
    (threadID txID opt : String) : OpRes :=
  match queryThread st threadID with
  | none => ⟨some .threadNotFound, []⟩
  | some t =>
    if t.status ≠ "open" then ⟨some .notOpen, []⟩
    else
      match st (Key.composite "vote" [threadID, txID, collection]) with
      | none => ⟨some .voteNotFound, []⟩
      | some _ =>
        if ¬ containsOpt t.options opt then ⟨some .badOption, []⟩
        else
          ⟨none, [(Key.simple threadID,
                   LVal.threadVal { t with options := mapAppend t.options opt userID })]⟩

/-- `UseAnonVote` (`part_001`): open-only; the token key (three
components, no recipient) must exist; the commitment hash of the
transient payload is appended to the poll's `votes` list; the token is
not marked used. -/
def UseAnonVote_p1 (st : Ledger) (collection : String) (hash : AnonVote → String)
    (v : AnonVote) : OpRes :=
  match queryAnonThread st v.threadID with
  | none => ⟨some .threadNotFound, []⟩
  | some t =>
    if t.status ≠ "open" then ⟨some .notOpen, []⟩
    else
      match st (Key.composite "vote" [v.threadID, v.txID, collection]) with
      | none => ⟨some .voteNotFound, []⟩
      | some _ =>
        if ¬ containsOpt t.options v.option then ⟨some .badOption, []⟩
        else
          ⟨none, [(Key.simple v.threadID,
                   LVal.anonThreadVal { t with votes := t.votes ++ [hash v] })]⟩

/-- `EndThread` (`thread.go`): creator-only, open-only close; runs the
winner scan and persists the poll with `status = "closed"`. -/
def EndThread_main (st : Ledger) (clientID threadID : String) : OpRes :=
  match queryThread st threadID with
  | none => ⟨some .threadNotFound, []⟩
  | some t =>
    if t.creator ≠ clientID then ⟨some .notCreator, []⟩
    else if t.status ≠ "open" then ⟨some .notOpen, []⟩
    else
      let t2 := { t with winOption := winnerScan t.options, status := "closed" }
      ⟨none, [(Key.simple threadID, LVal.threadVal t2)]⟩

/-- `EndThread` (`part_000` documents one and three): same checks and
scan, but the source assigns `status = "closed"` and then overwrites it
with `status = "ended"` before the single terminal write, so the
persisted status is `"ended"`. -/
def EndThread_v0 (st : Ledger) (clientID threadID : String) : OpRes :=
  match queryThread st threadID with
  | none => ⟨some .threadNotFound, []⟩
  | some t =>
    if t.creator ≠ clientID then ⟨some .notCreator, []⟩
    else if t.status ≠ "open" then ⟨some .notOpen, []⟩
    else
      let t2 := { t with winOption := winnerScan t.options, status := "ended" }
      ⟨none, [(Key.simple threadID, LVal.threadVal t2)]⟩

/-- `EndAnonThread` (`part_001`): creator-only, open-only; recovers the
tallies with the reveal loop, runs the winner scan, and persists with
`status = "ended"` (here too `"closed"` is assigned first and then
overwritten before the terminal write). -/
def EndAnonThread_p1 (st : Ledger) (clientID : String) (hash : AnonVote → String)
    (ed : EndData) : OpRes :=
  match queryAnonThread st ed.threadID with
  | none => ⟨some .threadNotFound, []⟩
  | some t =>
    if t.creator ≠ clientID then ⟨some .notCreator, []⟩
    else if t.status ≠ "open" then ⟨some .notOpen, []⟩
    else
      let opts := revealMatch hash ed.threadID ed.voteTxs ed.keys t.votes t.options
      let t2 := { t with options := opts, winOption := winnerScan opts,
                         status := "ended" }
      ⟨none, [(Key.simple ed.threadID, LVal.anonThreadVal t2)]⟩

/-! ## Reachability -/

/-- One ledger transition: some embedded operation is invoked with
arbitrary platform context and its result is committed (a failed
invocation commits nothing). -/
inductive Step : Ledger → Ledger → Prop
  | create (st : Ledger) (args : List String) (cid : String) :
      Step st (commitOp st (CreateThread st args cid))
  | createAnon (st : Ledger) (args : List String) (cid : String) :
      Step st (commitOp st (CreateAnonThread st args cid))
  | createVoteMain (st : Ledger) (cid col tx tid uid : String) :
      Step st (commitOp st (CreateVote_main st cid col tx tid uid))
  | createVoteV0c (st : Ledger) (cid col tx tid uid : String) :
      Step st (commitOp st (CreateVote_v0c st cid col tx tid uid))
  | useVoteMain (st : Ledger) (col uid tid tx o : String) :
      Step st (commitOp st (UseVote_main st col uid tid tx o))
  | useVotePlain (st : Ledger) (col uid tid tx o : String) :
      Step st (commitOp st (UseVote_plain st col uid tid tx o))
  | useAnonVote (st : Ledger) (col : String) (hash : AnonVote → String) (v : AnonVote) :
      Step st (commitOp st (UseAnonVote_p1 st col hash v))
  | endMain (st : Ledger) (cid tid : String) :
      Step st (commitOp st (EndThread_main st cid tid))
  | endV0 (st : Ledger) (cid tid : String) :
      Step st (commitOp st (EndThread_v0 st cid tid))
  | endAnon (st : Ledger) (cid : String) (hash : AnonVote → String) (ed : EndData) :
      Step st (commitOp st (EndAnonThread_p1 st cid hash ed))

/-- Ledger states reachable from the empty ledger through the
operations. -/
def Reach (st : Ledger) : Prop :=
  Relation.ReflTransGen Step emptyLedger st

/-- The poll statuses that actually occur in persisted polls. -/
def goodStatus (s : String) : Prop :=
  s = "open" ∨ s = "closed" ∨ s = "ended"

/-- Status invariant over a whole ledger: every stored poll, public or
anonymous, has one of the occurring statuses. -/
def StatusInv (st : Ledger) : Prop :=
  ∀ k : Key,
    (∀ t : Thread, st k = some (LVal.threadVal t) → goodStatus t.status) ∧
    (∀ t : AnonThread, st k = some (LVal.anonThreadVal t) → goodStatus t.status)


/-! ## Concrete fixtures used in witnesses and counterexamples -/

/-- A public poll with a strict plurality: A has two votes, B one. -/
def threadAB : Thread :=
  ⟨"cat", "thm", "dsc", "alice", [("A", ["x", "y"]), ("B", ["z"])], [], "open"⟩

/-- Ledger holding only `threadAB` at poll id `t1`. -/
def stAB : Ledger := fun k =>
  if k = Key.simple "t1" then some (LVal.threadVal threadAB) else none

/-- A tied options map in one enumeration order. -/
def optsTie : List (String × List String) := [("A", ["x"]), ("B", ["y"])]

/-- The same options map in the opposite enumeration order. -/
def optsTieRev : List (String × List String) := [("B", ["y"]), ("A", ["x"])]

/-- Ledger with the tied poll, options enumerating as `optsTie`. -/
def stTie : Ledger := fun k =>
  if k = Key.simple "t1" then
    some (LVal.threadVal ⟨"cat", "thm", "dsc", "alice", optsTie, [], "open"⟩)
  else none

/-- Ledger with the same tied poll, options enumerating as `optsTieRev`. -/
def stTieRev : Ledger := fun k =>
  if k = Key.simple "t1" then
    some (LVal.threadVal ⟨"cat", "thm", "dsc", "alice", optsTieRev, [], "open"⟩)
  else none

/-- Well-formed `CreateThread` argument list with a single option `A`. -/
def argsA : List String := ["CreateThread", "t1", "cat", "thm", "dsc", "A"]

/-- Ledger after creating poll `t1` from the empty ledger. -/
def stAfterCreate : Ledger :=
  commitOp emptyLedger (CreateThread emptyLedger argsA "alice")

/-- Ledger after additionally closing `t1` through the `part_000`
variant of `EndThread`. -/
def stAfterEndV0 : Ledger :=
  commitOp stAfterCreate (EndThread_v0 stAfterCreate "alice" "t1")

/-- Ledger with an open poll and one unused `thread.go`-style token
(bytes `"true"`) for recipient `bob`. -/
def stMainTok : Ledger := fun k =>
  if k = Key.simple "t1" then
    some (LVal.threadVal ⟨"c", "t", "d", "alice", [("A", [])], [], "open"⟩)
  else if k = Key.composite "vote" ["t1", "tx1", "org1", "bob"] then
    some (LVal.bytes "true")
  else none

/-- Ledger with an open poll and one `part_000`-style token (bytes
`"vote"`, no recipient component in the key). -/
def stPlainTok : Ledger := fun k =>
  if k = Key.simple "t1" then
    some (LVal.threadVal ⟨"c", "t", "d", "alice", [("A", [])], [], "open"⟩)
  else if k = Key.composite "vote" ["t1", "tx1", "org1"] then
    some (LVal.bytes "vote")
  else none

/-- `stPlainTok` after one successful plain-variant redemption. -/
def stPlain1 : Ledger :=
  commitOp stPlainTok (UseVote_plain stPlainTok "org1" "bob" "t1" "tx1" "A")

/-- Ledger with one open poll and no tokens, for issuance runs. -/
def stIssue : Ledger := fun k =>
  if k = Key.simple "t1" then
    some (LVal.threadVal ⟨"c", "t", "d", "alice", [("A", [])], [], "open"⟩)
  else none

/-- `stIssue` after issuing one token to `bob` (transaction `tx1`). -/
def stIssue1 : Ledger :=
  commitOp stIssue (CreateVote_main stIssue "alice" "org1" "tx1" "t1" "bob")

/-- Ledger holding a poll but no `IssuedVotes` index record. -/
def stV0cNoIdx : Ledger := fun k =>
  if k = Key.simple "t1" then
    some (LVal.threadVal ⟨"c", "t", "d", "alice", [("A", [])], [], "open"⟩)
  else none

/-- An open anonymous poll with options `A` and `B`, no commitments. -/
def anonAB : AnonThread :=
  ⟨"c", "t", "d", "alice", [], [("A", []), ("B", [])], [], "open"⟩

/-- Ledger with `anonAB` and one anonymous vote token for `tx1`. -/
def stAnonAB : Ledger := fun k =>
  if k = Key.simple "t1" then some (LVal.anonThreadVal anonAB)
  else if k = Key.composite "vote" ["t1", "tx1", "org1"] then
    some (LVal.bytes "vote")
  else none

/-- The poll of `stAB` as persisted by a successful `thread.go`
`EndThread` close. -/
def threadABclosed : Thread :=
  ⟨"cat", "thm", "dsc", "alice", [("A", ["x", "y"]), ("B", ["z"])], ["A"], "closed"⟩

/-- A degenerate constant hash exhibiting multiple candidate matches
for one stored commitment. -/
def hashConst : AnonVote → String := fun _ => "h"

/-- A concrete collision-free stand-in for the commitment hash, used
only to instantiate witnesses. -/
def hashDemo (v : AnonVote) : String :=
  v.threadID ++ "/" ++ v.txID ++ "/" ++ v.option ++ "/" ++ v.privateKey

/-! ## Winner-scan characterization -/

theorem maxVotes_append (l : List (String × List String)) (p : String × List String) :
    maxVotes (l ++ [p]) = max (maxVotes l) p.2.length := by
  simp [maxVotes, List.foldl_append]

theorem le_foldl_max (opts : List (String × List String)) (a : Nat) :
    a ≤ opts.foldl (fun m kv => max m kv.2.length) a := by
  induction opts generalizing a with
  | nil => simp
  | cons p l ih => exact le_trans (le_max_left _ _) (ih _)

theorem mem_length_le_maxVotes (opts : List (String × List String)) :
    ∀ kv ∈ opts, kv.2.length ≤ maxVotes opts := by
  unfold maxVotes
  generalize (0 : Nat) = a
  induction opts generalizing a with
  | nil => simp
  | cons p l ih =>
    intro kv h
    rcases List.mem_cons.mp h with h | h
    · subst h
      exact le_trans (le_max_right _ _) (le_foldl_max _ _)
    · exact ih _ kv h

theorem winnerFold_spec (opts : List (String × List String)) :
    (opts.foldl winnerStep (0, [])).1 = maxVotes opts ∧
    ∀ k, k ∈ (opts.foldl winnerStep (0, [])).2 ↔
      ∃ v, (k, v) ∈ opts ∧ v.length = maxVotes opts := by
  induction opts using List.reverseRecOn with
  | nil => simp [maxVotes]
  | append_singleton l p ih =>
    obtain ⟨ih1, ih2⟩ := ih
    rw [List.foldl_append, List.foldl_cons, List.foldl_nil, maxVotes_append]
    rcases Nat.lt_trichotomy (l.foldl winnerStep (0, [])).1 p.2.length with hlt | heq | hgt
    · have hmax : max (maxVotes l) p.2.length = p.2.length :=
        Nat.max_eq_right (le_of_lt (ih1 ▸ hlt))
      have hstep : winnerStep (l.foldl winnerStep (0, [])) p = (p.2.length, [p.1]) := by
        simp [winnerStep, hlt]
      rw [hstep, hmax]
      refine ⟨rfl, fun k => ?_⟩
      constructor
      · intro hk
        rcases List.mem_singleton.mp hk with rfl
        exact ⟨p.2, List.mem_append_right _ (by simp), rfl⟩
      · rintro ⟨v, hv, hlen⟩
        rcases List.mem_append.mp hv with hv | hv
        · exfalso
          have h1 : v.length ≤ maxVotes l := mem_length_le_maxVotes l (k, v) hv
          have h2 : maxVotes l < p.2.length := ih1 ▸ hlt
          omega
        · have h := List.mem_singleton.mp hv
          subst h
          simp
    · have hmax : max (maxVotes l) p.2.length = maxVotes l := by
        rw [← ih1, ← heq]
        exact Nat.max_self _
      have hstep : winnerStep (l.foldl winnerStep (0, [])) p =
          ((l.foldl winnerStep (0, [])).1, (l.foldl winnerStep (0, [])).2 ++ [p.1]) := by
        simp [winnerStep, heq, Nat.lt_irrefl]
      rw [hstep, hmax]
      refine ⟨ih1, fun k => ?_⟩
      rw [List.mem_append, List.mem_singleton, ih2 k]
      constructor
      · rintro (⟨v, hv, hlen⟩ | rfl)
        · exact ⟨v, List.mem_append_left _ hv, hlen⟩
        · exact ⟨p.2, List.mem_append_right _ (by simp), by rw [← heq, ih1]⟩
      · rintro ⟨v, hv, hlen⟩
        rcases List.mem_append.mp hv with hv | hv
        · exact Or.inl ⟨v, hv, hlen⟩
        · have h := List.mem_singleton.mp hv
          subst h
          exact Or.inr rfl
    · have hmax : max (maxVotes l) p.2.length = maxVotes l :=
        Nat.max_eq_left (le_of_lt (ih1 ▸ hgt))
      have hstep : winnerStep (l.foldl winnerStep (0, [])) p =
          l.foldl winnerStep (0, []) := by
        have h1 : ¬ p.2.length > (l.foldl winnerStep (0, [])).1 := by omega
        have h2 : ¬ p.2.length = (l.foldl winnerStep (0, [])).1 := by omega
        simp [winnerStep, h1, h2]
      rw [hstep, hmax]
      refine ⟨ih1, fun k => ?_⟩
      rw [ih2 k]
      constructor
      · rintro ⟨v, hv, hlen⟩
        exact ⟨v, List.mem_append_left _ hv, hlen⟩
      · rintro ⟨v, hv, hlen⟩
        rcases List.mem_append.mp hv with hv | hv
        · exact ⟨v, hv, hlen⟩
        · rcases List.mem_singleton.mp hv with h
          have h2 : v = p.2 := (Prod.ext_iff.mp h).2
          rw [ih1] at hgt
          rw [h2] at hlen
          omega

/-- The label set produced by the winner scan is exactly the set of
option labels whose vote-list length attains the maximum. -/
theorem winnerScan_spec (opts : List (String × List String)) (k : String) :
    k ∈ winnerScan opts ↔ ∃ v, (k, v) ∈ opts ∧ v.length = maxVotes opts :=
  (winnerFold_spec opts).2 k

/-! ## Reveal-loop characterization -/

theorem keysFold_spec (hash : AnonVote → String) (tid tx vote : String)
    (keys : List String) (opts : List (String × List String)) :
    keys.foldl (fun acc3 key => stepKV hash tid tx key vote acc3) opts =
      opts.map (fun kv =>
        (kv.1, kv.2 ++ List.replicate (keyMatches hash tid tx keys kv.1 vote) "vote")) := by
  induction keys generalizing opts with
  | nil => simp [keyMatches]
  | cons key ks ih =>
    simp only [List.foldl_cons]
    rw [ih]
    simp only [stepKV, List.map_map]
    congr 1
    funext kv
    by_cases h : hash ⟨tid, tx, kv.1, key⟩ = vote
    · simp [h, keyMatches, List.filter_cons, List.replicate_succ]
    · simp [h, keyMatches, List.filter_cons]

theorem txsFold_spec (hash : AnonVote → String) (tid vote : String)
    (txs keys : List String) (opts : List (String × List String)) :
    txs.foldl
        (fun acc2 tx =>
          keys.foldl (fun acc3 key => stepKV hash tid tx key vote acc3) acc2)
        opts =
      opts.map (fun kv =>
        (kv.1, kv.2 ++ List.replicate (txMatches hash tid txs keys kv.1 vote) "vote")) := by
  induction txs generalizing opts with
  | nil => simp [txMatches]
  | cons tx ts ih =>
    simp only [List.foldl_cons]
    rw [keysFold_spec, ih, List.map_map]
    congr 1
    funext kv
    simp only [Function.comp_apply, txMatches, List.map_cons, List.sum_cons,
      List.replicate_add, List.append_assoc]

theorem revealMatch_spec (hash : AnonVote → String) (tid : String)
    (txs keys votes : List String) (opts : List (String × List String)) :
    revealMatch hash tid txs keys votes opts =
      opts.map (fun kv =>
        (kv.1, kv.2 ++ List.replicate (totalMatches hash tid txs keys votes kv.1) "vote")) := by
  induction votes generalizing opts with
  | nil => simp [revealMatch, totalMatches]
  | cons v vs ih =>
    simp only [revealMatch, List.foldl_cons] at ih ⊢
    rw [txsFold_spec, ih, List.map_map]
    congr 1
    funext kv
    simp only [Function.comp_apply, totalMatches, List.map_cons, List.sum_cons,
      List.replicate_add, List.append_assoc]

/-! ## Option-map initialization -/

theorem mapGet_mapSet {α : Type} (m : List (String × α)) (k k2 : String) (v : α) :
    mapGet (mapSet m k v) k2 = if k2 = k then some v else mapGet m k2 := by
  induction m with
  | nil =>
    by_cases h : k2 = k
    · subst h; simp [mapSet, mapGet]
    · have h2 : ¬ k = k2 := fun hh => h hh.symm
      simp [mapSet, mapGet, h, h2]
  | cons p rest ih =>
    obtain ⟨pk, pv⟩ := p
    by_cases hp : pk = k
    · subst hp
      by_cases h : k2 = pk
      · subst h; simp [mapSet, mapGet]
      · have h2 : ¬ pk = k2 := fun hh => h hh.symm
        simp [mapSet, mapGet, h, h2]
    · by_cases h : k2 = pk
      · subst h
        simp [mapSet, mapGet, hp]
      · have h2 : ¬ pk = k2 := fun hh => h hh.symm
        simp [mapSet, mapGet, hp, h, h2, ih]

theorem mapGet_foldl_mapSet (opts : List String) (m : List (String × List String))
    (o : String) :
    mapGet (opts.foldl (fun m2 o2 => mapSet m2 o2 []) m) o =
      if o ∈ opts then some [] else mapGet m o := by
  induction opts generalizing m with
  | nil => simp
  | cons a as ih =>
    simp only [List.foldl_cons]
    rw [ih]
    by_cases h : o ∈ as
    · simp [h]
    · rw [if_neg h, mapGet_mapSet]
      by_cases h2 : o = a
      · subst h2; simp
      · simp [h, h2]

/-- Every supplied option label is initialized to the empty vote list,
and no other label occurs. -/
theorem mapGet_mkOptions (opts : List String) (o : String) :
    mapGet (mkOptions opts) o = if o ∈ opts then some [] else none := by
  rw [mkOptions, mapGet_foldl_mapSet]
  rfl

/-! ## Status invariant -/

/-- A ledger value is status-good when any poll it stores has one of
the occurring statuses. -/
def goodVal (v : LVal) : Prop :=
  (∀ t : Thread, v = LVal.threadVal t → goodStatus t.status) ∧
  (∀ t : AnonThread, v = LVal.anonThreadVal t → goodStatus t.status)

theorem statusInv_applyWrites (st : Ledger) (ws : List (Key × LVal))
    (hst : StatusInv st) (hws : ∀ kv ∈ ws, goodVal kv.2) :
    StatusInv (applyWrites st ws) := by
  induction ws generalizing st with
  | nil => exact hst
  | cons w rest ih =>
    simp only [applyWrites, List.foldl_cons] at ih ⊢
    refine ih _ ?_ (fun kv hkv => hws kv (List.mem_cons_of_mem _ hkv))
    intro k
    constructor
    · intro t ht
      dsimp only at ht
      by_cases hk : k = w.1
      · rw [if_pos hk] at ht
        exact (hws w (List.mem_cons_self _ _)).1 t (Option.some.inj ht)
      · rw [if_neg hk] at ht
        exact (hst k).1 t ht
    · intro t ht
      dsimp only at ht
      by_cases hk : k = w.1
      · rw [if_pos hk] at ht
        exact (hws w (List.mem_cons_self _ _)).2 t (Option.some.inj ht)
      · rw [if_neg hk] at ht
        exact (hst k).2 t ht

theorem statusInv_commitOp (st : Ledger) (r : OpRes) (hst : StatusInv st)
    (hws : ∀ kv ∈ r.writes, goodVal kv.2) : StatusInv (commitOp st r) := by
  unfold commitOp
  match hr : r.res with
  | none => exact statusInv_applyWrites st r.writes hst hws
  | some e => exact hst

theorem goodVal_thread (t : Thread) (h : goodStatus t.status) :
    goodVal (LVal.threadVal t) := by
  constructor
  · intro t2 ht2
    cases ht2
    exact h
  · intro t2 ht2
    cases ht2

theorem goodVal_anonThread (t : AnonThread) (h : goodStatus t.status) :
    goodVal (LVal.anonThreadVal t) := by
  constructor
  · intro t2 ht2
    cases ht2
  · intro t2 ht2
    cases ht2
    exact h

theorem goodVal_bytes (s : String) : goodVal (LVal.bytes s) := by
  constructor
  · intro t ht
    cases ht
  · intro t ht
    cases ht

theorem goodVal_votes (vs : List (String × Bool)) : goodVal (LVal.votesVal vs) := by
  constructor
  · intro t ht
    cases ht
  · intro t ht
    cases ht

theorem goodStatus_open : goodStatus "open" := Or.inl rfl

theorem goodStatus_closed : goodStatus "closed" := Or.inr (Or.inl rfl)

theorem goodStatus_ended : goodStatus "ended" := Or.inr (Or.inr rfl)

theorem goodWrites_createThread (st : Ledger) (args : List String) (cid : String) :
    ∀ kv ∈ (CreateThread st args cid).writes, goodVal kv.2 := by
  unfold CreateThread
  split
  · simp
  · split
    · split
      · simp
      · intro kv hkv
        rcases List.mem_singleton.mp hkv with rfl
        exact goodVal_thread _ goodStatus_open
    · simp

theorem goodWrites_createAnonThread (st : Ledger) (args : List String) (cid : String) :
    ∀ kv ∈ (CreateAnonThread st args cid).writes, goodVal kv.2 := by
  unfold CreateAnonThread
  split
  · simp
  · split
    · split
      · simp
      · intro kv hkv
        rcases List.mem_singleton.mp hkv with rfl
        exact goodVal_anonThread _ goodStatus_open
    · simp

theorem goodWrites_createVoteMain (st : Ledger) (cid col tx tid uid : String) :
    ∀ kv ∈ (CreateVote_main st cid col tx tid uid).writes, goodVal kv.2 := by
  unfold CreateVote_main
  split
  · simp
  · split
    · simp
    · split
      · simp
      · split
        · simp
        · intro kv hkv
          rcases List.mem_singleton.mp hkv with rfl
          exact goodVal_bytes _

theorem goodWrites_createVoteV0c (st : Ledger) (cid col tx tid uid : String) :
    ∀ kv ∈ (CreateVote_v0c st cid col tx tid uid).writes, goodVal kv.2 := by
  unfold CreateVote_v0c
  split
  · simp
  · split
    · simp
    · split
      · intro kv hkv
        rcases List.mem_cons.mp hkv with rfl | hkv
        · exact goodVal_bytes _
        · rcases List.mem_singleton.mp hkv with rfl
          exact goodVal_votes _
      · intro kv hkv
        rcases List.mem_singleton.mp hkv with rfl
        exact goodVal_bytes _

theorem goodWrites_useVoteMain (st : Ledger) (col uid tid tx o : String) :
    ∀ kv ∈ (UseVote_main st col uid tid tx o).writes, goodVal kv.2 := by
  unfold UseVote_main
  split
  · simp
  next t hq =>
    split
    · simp
    next hs =>
      split
      · simp
      · split
        · simp
        next hd =>
          split
          · simp
          next hc =>
            intro kv hkv
            rcases List.mem_cons.mp hkv with rfl | hkv
            · exact goodVal_thread _ (by
                have : t.status = "open" := not_not.mp hs
                simp [this, goodStatus_open])
            · rcases List.mem_singleton.mp hkv with rfl
              exact goodVal_bytes _
      · simp

theorem goodWrites_useVotePlain (st : Ledger) (col uid tid tx o : String) :
    ∀ kv ∈ (UseVote_plain st col uid tid tx o).writes, goodVal kv.2 := by
  unfold UseVote_plain
  split
  · simp
  next t hq =>
    split
    · simp
    next hs =>
      split
      · simp
      · split
        · simp
        next hc =>
          intro kv hkv
          rcases List.mem_singleton.mp hkv with rfl
          exact goodVal_thread _ (by
            have : t.status = "open" := not_not.mp hs
            simp [this, goodStatus_open])

theorem goodWrites_useAnonVote (st : Ledger) (col : String) (hash : AnonVote → String)
    (v : AnonVote) : ∀ kv ∈ (UseAnonVote_p1 st col hash v).writes, goodVal kv.2 := by
  unfold UseAnonVote_p1
  split
  · simp
  next t hq =>
    split
    · simp
    next hs =>
      split
      · simp
      · split
        · simp
        next hc =>
          intro kv hkv
          rcases List.mem_singleton.mp hkv with rfl
          exact goodVal_anonThread _ (by
            have : t.status = "open" := not_not.mp hs
            simp [this, goodStatus_open])

theorem goodWrites_endMain (st : Ledger) (cid tid : String) :
    ∀ kv ∈ (EndThread_main st cid tid).writes, goodVal kv.2 := by
  unfold EndThread_main
  split
  · simp
  · split
    · simp
    · split
      · simp
      · intro kv hkv
        rcases List.mem_singleton.mp hkv with rfl
        exact goodVal_thread _ goodStatus_closed

theorem goodWrites_endV0 (st : Ledger) (cid tid : String) :
    ∀ kv ∈ (EndThread_v0 st cid tid).writes, goodVal kv.2 := by
  unfold EndThread_v0
  split
  · simp
  · split
    · simp
    · split
      · simp
      · intro kv hkv
        rcases List.mem_singleton.mp hkv with rfl
        exact goodVal_thread _ goodStatus_ended

theorem goodWrites_endAnon (st : Ledger) (cid : String) (hash : AnonVote → String)
    (ed : EndData) : ∀ kv ∈ (EndAnonThread_p1 st cid hash ed).writes, goodVal kv.2 := by
  unfold EndAnonThread_p1
  split
  · simp
  · split
    · simp
    · split
      · simp
      · intro kv hkv
        rcases List.mem_singleton.mp hkv with rfl
        exact goodVal_anonThread _ goodStatus_ended

/-- Every ledger state reachable through the embedded operations
satisfies the status invariant. -/
theorem reach_statusInv (st : Ledger) (h : Reach st) : StatusInv st := by
  unfold Reach at h
  induction h with
  | refl =>
    intro k
    constructor
    · intro t ht
      cases ht
    · intro t ht
      cases ht
  | tail hsteps hstep ih =>
    cases hstep with
    | create args cid =>
      exact statusInv_commitOp _ _ ih (goodWrites_createThread _ args cid)
    | createAnon args cid =>
      exact statusInv_commitOp _ _ ih (goodWrites_createAnonThread _ args cid)
    | createVoteMain cid col tx tid uid =>
      exact statusInv_commitOp _ _ ih (goodWrites_createVoteMain _ cid col tx tid uid)
    | createVoteV0c cid col tx tid uid =>
      exact statusInv_commitOp _ _ ih (goodWrites_createVoteV0c _ cid col tx tid uid)
    | useVoteMain col uid tid tx o =>
      exact statusInv_commitOp _ _ ih (goodWrites_useVoteMain _ col uid tid tx o)
    | useVotePlain col uid tid tx o =>
      exact statusInv_commitOp _ _ ih (goodWrites_useVotePlain _ col uid tid tx o)
    | useAnonVote col hash v =>
      exact statusInv_commitOp _ _ ih (goodWrites_useAnonVote _ col hash v)
    | endMain cid tid =>
      exact statusInv_commitOp _ _ ih (goodWrites_endMain _ cid tid)
    | endV0 cid tid =>
      exact statusInv_commitOp _ _ ih (goodWrites_endV0 _ cid tid)
    | endAnon cid hash ed =>
      exact statusInv_commitOp _ _ ih (goodWrites_endAnon _ cid hash ed)


/-! ## UseVote success characterization -/

theorem useVoteMain_success (st : Ledger) (col uid tid tx opt : String)
    (h : (UseVote_main st col uid tid tx opt).res = none) :
    ∃ t data,
      queryThread st tid = some t ∧ t.status = "open" ∧
      st (Key.composite "vote" [tid, tx, col, uid]) = some (LVal.bytes data) ∧
      ¬ data.length = 5 ∧ containsOpt t.options opt = true := by
  cases hq : queryThread st tid with
  | none => simp [UseVote_main, hq] at h
  | some t =>
    by_cases hs : t.status = "open"
    · cases hv : st (Key.composite "vote" [tid, tx, col, uid]) with
      | none => simp [UseVote_main, hq, hs, hv] at h
      | some val =>
        cases val with
        | bytes data =>
          by_cases hd : data.length = 5
          · simp [UseVote_main, hq, hs, hv, hd] at h
          · by_cases hcn : containsOpt t.options opt = true
            · exact ⟨t, data, rfl, hs, rfl, hd, hcn⟩
            · simp [UseVote_main, hq, hs, hv, hd, hcn] at h
        | threadVal t2 => simp [UseVote_main, hq, hs, hv] at h
        | anonThreadVal t2 => simp [UseVote_main, hq, hs, hv] at h
        | votesVal vs => simp [UseVote_main, hq, hs, hv] at h
    · simp [UseVote_main, hq, hs] at h

theorem useVoteMain_eq (st : Ledger) (col uid tid tx opt : String) (t : Thread)
    (data : String)
    (hq : queryThread st tid = some t) (hs : t.status = "open")
    (hv : st (Key.composite "vote" [tid, tx, col, uid]) = some (LVal.bytes data))
    (hd : ¬ data.length = 5) (hcn : containsOpt t.options opt = true) :
    UseVote_main st col uid tid tx opt =
      ⟨none, [(Key.simple tid,
               LVal.threadVal { t with options := mapAppend t.options opt uid }),
              (Key.composite "vote" [tid, tx, col, uid], LVal.bytes "false")]⟩ := by
  simp only [UseVote_main, hq, hv, hs, hd, hcn]
  simp

/-- Claim C2 (amended to the `thread.go` variant): after a successful
`UseVote` redemption, the used flag (`json.Marshal(false) = "false"`,
five bytes) is persisted at the token key, and a second `UseVote` with
the same (poll, token, organization, voter) key fails with the
vote-already-used error, writes nothing, and leaves the committed
ledger — in particular the poll's tallies — unchanged. -/
theorem C2_redeem_once_main (st : Ledger) (col uid tid tx opt opt2 : String)
    (h : (UseVote_main st col uid tid tx opt).res = none) :
    commitOp st (UseVote_main st col uid tid tx opt)
        (Key.composite "vote" [tid, tx, col, uid]) = some (LVal.bytes "false") ∧
    (UseVote_main (commitOp st (UseVote_main st col uid tid tx opt))
        col uid tid tx opt2).res = some VErr.voteUsed ∧
    (UseVote_main (commitOp st (UseVote_main st col uid tid tx opt))
        col uid tid tx opt2).writes = [] ∧
    commitOp (commitOp st (UseVote_main st col uid tid tx opt))
        (UseVote_main (commitOp st (UseVote_main st col uid tid tx opt))
          col uid tid tx opt2) =
      commitOp st (UseVote_main st col uid tid tx opt) := by
  obtain ⟨t, data, hq, hs, hv, hd, hcn⟩ := useVoteMain_success st col uid tid tx opt h
  have heq := useVoteMain_eq st col uid tid tx opt t data hq hs hv hd hcn
  rw [heq]
  have hB : commitOp st
      (⟨none, [(Key.simple tid,
                LVal.threadVal { t with options := mapAppend t.options opt uid }),
               (Key.composite "vote" [tid, tx, col, uid], LVal.bytes "false")]⟩ : OpRes)
      (Key.composite "vote" [tid, tx, col, uid]) = some (LVal.bytes "false") := by
    show (if Key.composite "vote" [tid, tx, col, uid] =
            Key.composite "vote" [tid, tx, col, uid] then
            some (LVal.bytes "false")
          else if Key.composite "vote" [tid, tx, col, uid] = Key.simple tid then
            some (LVal.threadVal { t with options := mapAppend t.options opt uid })
          else st (Key.composite "vote" [tid, tx, col, uid])) =
        some (LVal.bytes "false")
    rw [if_pos rfl]
  have hA : commitOp st
      (⟨none, [(Key.simple tid,
                LVal.threadVal { t with options := mapAppend t.options opt uid }),
               (Key.composite "vote" [tid, tx, col, uid], LVal.bytes "false")]⟩ : OpRes)
      (Key.simple tid) =
      some (LVal.threadVal { t with options := mapAppend t.options opt uid }) := by
    show (if Key.simple tid = Key.composite "vote" [tid, tx, col, uid] then
            some (LVal.bytes "false")
          else if Key.simple tid = Key.simple tid then
            some (LVal.threadVal { t with options := mapAppend t.options opt uid })
          else st (Key.simple tid)) =
        some (LVal.threadVal { t with options := mapAppend t.options opt uid })
    rw [if_neg (fun hh => Key.noConfusion hh), if_pos rfl]
  have hq2 : queryThread
      (commitOp st
        (⟨none, [(Key.simple tid,
                  LVal.threadVal { t with options := mapAppend t.options opt uid }),
                 (Key.composite "vote" [tid, tx, col, uid], LVal.bytes "false")]⟩ : OpRes))
      tid = some { t with options := mapAppend t.options opt uid } := by
    unfold queryThread
    rw [hA]
  have hrun : UseVote_main
      (commitOp st
        (⟨none, [(Key.simple tid,
                  LVal.threadVal { t with options := mapAppend t.options opt uid }),
                 (Key.composite "vote" [tid, tx, col, uid], LVal.bytes "false")]⟩ : OpRes))
      col uid tid tx opt2 = ⟨some VErr.voteUsed, []⟩ := by
    simp only [hs] at hq2 hB
    simp only [UseVote_main, hs, hq2, hB]
    have h5 : ("false" : String).length = 5 := by decide
    simp [h5]
  refine ⟨hB, ?_, ?_, ?_⟩
  · rw [hrun]
  · rw [hrun]
  · rw [hrun]
    rfl

/-- Claim C2 witness: a concrete successful redemption on `stMainTok`,
instantiating the amended theorem. -/
theorem C2_redeem_once_main_witness :
    commitOp stMainTok (UseVote_main stMainTok "org1" "bob" "t1" "tx1" "A")
        (Key.composite "vote" ["t1", "tx1", "org1", "bob"]) =
      some (LVal.bytes "false") ∧
    (UseVote_main (commitOp stMainTok (UseVote_main stMainTok "org1" "bob" "t1" "tx1" "A"))
        "org1" "bob" "t1" "tx1" "A").res = some VErr.voteUsed ∧
    (UseVote_main (commitOp stMainTok (UseVote_main stMainTok "org1" "bob" "t1" "tx1" "A"))
        "org1" "bob" "t1" "tx1" "A").writes = [] ∧
    commitOp (commitOp stMainTok (UseVote_main stMainTok "org1" "bob" "t1" "tx1" "A"))
        (UseVote_main (commitOp stMainTok (UseVote_main stMainTok "org1" "bob" "t1" "tx1" "A"))
          "org1" "bob" "t1" "tx1" "A") =
      commitOp stMainTok (UseVote_main stMainTok "org1" "bob" "t1" "tx1" "A") :=
  C2_redeem_once_main stMainTok "org1" "bob" "t1" "tx1" "A" "A" (by decide)

/-- Claim C2 counterexample: the `part_000` plain variant of `UseVote`
has no used-flag check and never updates the token, so a second
redemption of the same token succeeds instead of failing with the
token-already-used error, and the voter is tallied twice. -/
theorem C2_counterexample :
    (UseVote_plain stPlainTok "org1" "bob" "t1" "tx1" "A").res = none ∧
    (UseVote_plain stPlain1 "org1" "bob" "t1" "tx1" "A").res = none ∧
    commitOp stPlain1 (UseVote_plain stPlain1 "org1" "bob" "t1" "tx1" "A")
        (Key.simple "t1") =
      some (LVal.threadVal
        ⟨"c", "t", "d", "alice", [("A", ["bob", "bob"])], [], "open"⟩) :=
  ⟨by decide, by decide, by decide⟩

/-! ## EndThread characterization -/

theorem endThreadMain_eq (st : Ledger) (cid tid : String) (t : Thread)
    (hq : queryThread st tid = some t) (hc : t.creator = cid)
    (hst : t.status = "open") :
    EndThread_main st cid tid =
      ⟨none, [(Key.simple tid, LVal.threadVal
        { t with winOption := winnerScan t.options, status := "closed" })]⟩ := by
  simp only [EndThread_main, hq, hc, hst]
  simp

/-- Claim C3: close computes the plurality winners with ties
preserved — for every enumeration of a poll's options the label set
produced by the winner scan is exactly the set of option labels whose
vote-list length attains the maximum; the same holds for the poll
persisted by a successful `EndThread`; and on the spec's concrete
examples {A ↦ [x,y], B ↦ [z]} yields winOptions = [A], while
{A ↦ [x], B ↦ [y]} yields winOptions whose label set is {A, B}. -/
theorem C3_winner_plurality :
    (∀ (opts : List (String × List String)) (k : String),
        k ∈ winnerScan opts ↔ ∃ v, (k, v) ∈ opts ∧ v.length = maxVotes opts) ∧
    (∀ (st : Ledger) (cid tid : String) (t2 : Thread),
        (EndThread_main st cid tid).writes = [(Key.simple tid, LVal.threadVal t2)] →
        ∀ k, k ∈ t2.winOption ↔
          ∃ v, (k, v) ∈ t2.options ∧ v.length = maxVotes t2.options) ∧
    winnerScan [("A", ["x", "y"]), ("B", ["z"])] = ["A"] ∧
    (∀ k, k ∈ winnerScan [("A", ["x"]), ("B", ["y"])] ↔ k = "A" ∨ k = "B") := by
  refine ⟨winnerScan_spec, ?_, by decide, ?_⟩
  · intro st cid tid t2 hw k
    cases hq : queryThread st tid with
    | none => simp [EndThread_main, hq] at hw
    | some t =>
      by_cases hc : t.creator = cid
      · by_cases hst : t.status = "open"
        · rw [endThreadMain_eq st cid tid t hq hc hst] at hw
          simp at hw
          subst hw
          simpa using winnerScan_spec t.options k
        · simp [EndThread_main, hq, hc, hst] at hw
      · simp [EndThread_main, hq, hc] at hw
  · intro k
    have hval : winnerScan [("A", ["x"]), ("B", ["y"])] = ["A", "B"] := by decide
    rw [hval]
    simp

/-- Claim C3 witness: the general close-level statement instantiated
on the concrete poll `stAB`. -/
theorem C3_winner_plurality_witness :
    "A" ∈ threadABclosed.winOption ↔
      ∃ v, ("A", v) ∈ threadABclosed.options ∧
        v.length = maxVotes threadABclosed.options :=
  C3_winner_plurality.2.1 stAB "alice" "t1" threadABclosed (by decide) "A"

/-- Claim C1, refuted at a concrete input (code bug): the winner scan
depends on the enumeration order of the options map.  `optsTie` and
`optsTieRev` are permutations of each other and agree as maps on every
key that occurs, yet the scan yields the sequences ["A", "B"] and
["B", "A"] respectively, so two re-executions of the same `EndThread`
transaction from the same logical ledger state can persist different
`winOptions` sequences — output state is not bit-identical. -/
theorem C1_close_nondeterministic :
    List.Perm optsTie optsTieRev ∧
    mapGet optsTie "A" = mapGet optsTieRev "A" ∧
    mapGet optsTie "B" = mapGet optsTieRev "B" ∧
    winnerScan optsTie = ["A", "B"] ∧
    winnerScan optsTieRev = ["B", "A"] ∧
    winnerScan optsTie ≠ winnerScan optsTieRev ∧
    (EndThread_main stTie "alice" "t1").res = none ∧
    (EndThread_main stTieRev "alice" "t1").res = none ∧
    commitOp stTie (EndThread_main stTie "alice" "t1") (Key.simple "t1") =
      some (LVal.threadVal
        ⟨"cat", "thm", "dsc", "alice", optsTie, ["A", "B"], "closed"⟩) ∧
    commitOp stTieRev (EndThread_main stTieRev "alice" "t1") (Key.simple "t1") =
      some (LVal.threadVal
        ⟨"cat", "thm", "dsc", "alice", optsTieRev, ["B", "A"], "closed"⟩) ∧
    (⟨"cat", "thm", "dsc", "alice", optsTie, ["A", "B"], "closed"⟩ : Thread).winOption ≠
      (⟨"cat", "thm", "dsc", "alice", optsTieRev, ["B", "A"], "closed"⟩ : Thread).winOption :=
  ⟨List.Perm.swap _ _ _, by decide, by decide, by decide, by decide, by decide,
   by decide, by decide, by decide, by decide, by decide⟩

/-- Claim C4 (amended): every poll state reachable through the
operations has status "open", "closed" or "ended" (not only
"open"/"closed": the `part_000`/`part_001` close variants persist
"ended"), and the `thread.go` `EndThread` specifically persists the
poll with status "closed". -/
theorem C4_status_invariant :
    (∀ st : Ledger, Reach st → StatusInv st) ∧
    (∀ (st : Ledger) (cid tid : String),
      (EndThread_main st cid tid).res = none →
      ∃ t2, (EndThread_main st cid tid).writes =
          [(Key.simple tid, LVal.threadVal t2)] ∧ t2.status = "closed") := by
  refine ⟨reach_statusInv, ?_⟩
  intro st cid tid h
  cases hq : queryThread st tid with
  | none => simp [EndThread_main, hq] at h
  | some t =>
    by_cases hc : t.creator = cid
    · by_cases hst : t.status = "open"
      · exact ⟨_, by rw [endThreadMain_eq st cid tid t hq hc hst], rfl⟩
      · simp [EndThread_main, hq, hc, hst] at h
    · simp [EndThread_main, hq, hc] at h

/-- Claim C4 witness: the invariant at the empty ledger, and a
concrete successful `thread.go` close persisting status "closed". -/
theorem C4_status_invariant_witness :
    StatusInv emptyLedger ∧
    ∃ t2, (EndThread_main stAB "alice" "t1").writes =
        [(Key.simple "t1", LVal.threadVal t2)] ∧ t2.status = "closed" :=
  ⟨C4_status_invariant.1 emptyLedger Relation.ReflTransGen.refl,
   C4_status_invariant.2 stAB "alice" "t1" (by decide)⟩

/-- Claim C4 counterexample: a ledger state reachable through the
operations (create, then close through the `part_000` `EndThread`)
holds a poll whose status is "ended", which is neither "open" nor
"closed"; that close variant does not persist "closed". -/
theorem C4_status_counterexample :
    Reach stAfterEndV0 ∧
    (EndThread_v0 stAfterCreate "alice" "t1").res = none ∧
    stAfterEndV0 (Key.simple "t1") =
      some (LVal.threadVal ⟨"cat", "thm", "dsc", "alice", [("A", [])], ["A"], "ended"⟩) ∧
    ("ended" : String) ≠ "open" ∧ ("ended" : String) ≠ "closed" :=
  ⟨Relation.ReflTransGen.tail
      (Relation.ReflTransGen.tail Relation.ReflTransGen.refl
        (Step.create emptyLedger argsA "alice"))
      (Step.endV0 stAfterCreate "alice" "t1"),
   by decide, by decide, by decide, by decide⟩

/-- Claim C5, refuted at a concrete input (code bug): the duplicate
check in the `thread.go` `CreateVote` looks up a composite key that
contains the fresh transaction id, so it can never find a previously
issued token; issuing twice to the same recipient on the same poll
succeeds both times and leaves two tokens for (t1, bob), instead of
failing with the already-issued error. -/
theorem C5_duplicate_issuance :
    (CreateVote_main stIssue "alice" "org1" "tx1" "t1" "bob").res = none ∧
    (CreateVote_main stIssue1 "alice" "org1" "tx2" "t1" "bob").res = none ∧
    commitOp stIssue1 (CreateVote_main stIssue1 "alice" "org1" "tx2" "t1" "bob")
        (Key.composite "vote" ["t1", "tx1", "org1", "bob"]) =
      some (LVal.bytes "true") ∧
    commitOp stIssue1 (CreateVote_main stIssue1 "alice" "org1" "tx2" "t1" "bob")
        (Key.composite "vote" ["t1", "tx2", "org1", "bob"]) =
      some (LVal.bytes "true") :=
  ⟨by decide, by decide, by decide, by decide⟩

/-- Claim C10, refuted at a concrete input (code bug): the
`len(args) < 4` guard of `CreateThread`/`CreateAnonThread` does not
protect the later accesses.  With exactly four arguments the guard
passes and `args[4]` indexes out of range (a Go runtime panic, modelled
as `indexOutOfRange`) instead of the missing-arguments error; with
exactly five arguments the call does not error at all — it creates a
zero-option poll; the missing-arguments error fires only below four. -/
theorem C10_argument_guard_gap :
    CreateThread emptyLedger ["CreateThread", "t1", "cat", "thm"] "alice" =
      ⟨some VErr.indexOutOfRange, []⟩ ∧
    CreateAnonThread emptyLedger ["CreateAnonThread", "t1", "cat", "thm"] "alice" =
      ⟨some VErr.indexOutOfRange, []⟩ ∧
    VErr.indexOutOfRange ≠ VErr.notEnoughArgs ∧
    (CreateThread emptyLedger ["CreateThread", "t1", "cat", "thm", "dsc"] "alice").res =
      none ∧
    (CreateThread emptyLedger ["CreateThread", "t1", "cat"] "alice").res =
      some VErr.notEnoughArgs :=
  ⟨by decide, by decide, by decide, by decide, by decide⟩

/-! ## Anonymous-variant characterization -/

theorem useAnonP1_eq (st : Ledger) (col : String) (hash : AnonVote → String)
    (v : AnonVote) (t : AnonThread)
    (hq : queryAnonThread st v.threadID = some t) (hst : t.status = "open")
    (htok : st (Key.composite "vote" [v.threadID, v.txID, col]) ≠ none)
    (hopt : containsOpt t.options v.option = true) :
    UseAnonVote_p1 st col hash v =
      ⟨none, [(Key.simple v.threadID,
               LVal.anonThreadVal { t with votes := t.votes ++ [hash v] })]⟩ := by
  cases htv : st (Key.composite "vote" [v.threadID, v.txID, col]) with
  | none => exact absurd htv htok
  | some b =>
    simp only [UseAnonVote_p1, hq, hst, htv, hopt]
    simp

theorem endAnonP1_eq (st : Ledger) (cid : String) (hash : AnonVote → String)
    (ed : EndData) (t : AnonThread)
    (hq : queryAnonThread st ed.threadID = some t)
    (hc : t.creator = cid) (hst : t.status = "open") :
    EndAnonThread_p1 st cid hash ed =
      ⟨none, [(Key.simple ed.threadID, LVal.anonThreadVal
        { t with
            options := revealMatch hash ed.threadID ed.voteTxs ed.keys t.votes t.options,
            winOption :=
              winnerScan (revealMatch hash ed.threadID ed.voteTxs ed.keys t.votes t.options),
            status := "ended" })]⟩ := by
  simp only [EndAnonThread_p1, hq, hc, hst]
  simp

theorem mapCongrMem {α β : Type} (l : List α) (f g : α → β)
    (h : ∀ a ∈ l, f a = g a) : l.map f = l.map g := by
  induction l with
  | nil => rfl
  | cons x xs ih =>
    simp only [List.map_cons]
    rw [h x (List.mem_cons_self x xs), ih (fun a ha => h a (List.mem_cons_of_mem x ha))]

/-- Claim C7: the reveal loop counts every matching candidate triple
independently and deduplicates nothing — each option's vote list is
extended by exactly one marker per (commitment, transactionID, secret)
triple, counted with multiplicity, whose recomputed hash equals the
stored commitment; concretely, a single stored commitment matched by
two distinct candidate triples contributes two increments; and the
poll persisted by a successful `EndAnonThread` carries exactly the
option lists produced by this loop. -/
theorem C7_reveal_no_dedup :
    (∀ (hash : AnonVote → String) (tid : String) (txs keys votes : List String)
        (opts : List (String × List String)),
      revealMatch hash tid txs keys votes opts =
        opts.map (fun kv =>
          (kv.1, kv.2 ++
            List.replicate (totalMatches hash tid txs keys votes kv.1) "vote"))) ∧
    totalMatches hashConst "t1" ["tx1", "tx2"] ["k"] ["h"] "A" = 2 ∧
    revealMatch hashConst "t1" ["tx1", "tx2"] ["k"] ["h"] [("A", [])] =
      [("A", ["vote", "vote"])] ∧
    (∀ (st : Ledger) (cid : String) (hash : AnonVote → String) (ed : EndData)
        (t2 : AnonThread),
      (EndAnonThread_p1 st cid hash ed).writes =
        [(Key.simple ed.threadID, LVal.anonThreadVal t2)] →
      ∃ t, queryAnonThread st ed.threadID = some t ∧
        t2.options = revealMatch hash ed.threadID ed.voteTxs ed.keys t.votes t.options) := by
  refine ⟨revealMatch_spec, by decide, by decide, ?_⟩
  intro st cid hash ed t2 hw
  cases hq : queryAnonThread st ed.threadID with
  | none => simp [EndAnonThread_p1, hq] at hw
  | some t =>
    by_cases hc : t.creator = cid
    · by_cases hst : t.status = "open"
      · rw [endAnonP1_eq st cid hash ed t hq hc hst] at hw
        simp at hw
        subst hw
        exact ⟨t, rfl, rfl⟩
      · simp [EndAnonThread_p1, hq, hc, hst] at hw
    · simp [EndAnonThread_p1, hq, hc] at hw

/-- Claim C7 witness: the close-level conjunct instantiated on a
concrete anonymous poll with no stored commitments. -/
theorem C7_reveal_no_dedup_witness :
    ∃ t, queryAnonThread stAnonAB "t1" = some t ∧
      (⟨"c", "t", "d", "alice", [], [("A", []), ("B", [])], ["A", "B"],
        "ended"⟩ : AnonThread).options =
        revealMatch hashDemo "t1" ["tx1"] ["s1"] t.votes t.options :=
  C7_reveal_no_dedup.2.2.2 stAnonAB "alice" hashDemo ⟨"t1", ["s1"], ["tx1"]⟩
    ⟨"c", "t", "d", "alice", [], [("A", []), ("B", [])], ["A", "B"], "ended"⟩
    (by decide)

/-! ## Validation-before-write lemmas -/

theorem resOrEmpty_createThread (st : Ledger) (args : List String) (cid : String) :
    (CreateThread st args cid).res = none ∨ (CreateThread st args cid).writes = [] := by
  unfold CreateThread
  split
  · exact Or.inr rfl
  · split
    · split
      · exact Or.inr rfl
      · exact Or.inl rfl
    · exact Or.inr rfl

theorem resOrEmpty_createAnonThread (st : Ledger) (args : List String) (cid : String) :
    (CreateAnonThread st args cid).res = none ∨
      (CreateAnonThread st args cid).writes = [] := by
  unfold CreateAnonThread
  split
  · exact Or.inr rfl
  · split
    · split
      · exact Or.inr rfl
      · exact Or.inl rfl
    · exact Or.inr rfl

theorem resOrEmpty_createVoteMain (st : Ledger) (cid col tx tid uid : String) :
    (CreateVote_main st cid col tx tid uid).res = none ∨
      (CreateVote_main st cid col tx tid uid).writes = [] := by
  unfold CreateVote_main
  split
  · exact Or.inr rfl
  · split
    · exact Or.inr rfl
    · split
      · exact Or.inr rfl
      · split
        · exact Or.inr rfl
        · exact Or.inl rfl

theorem resOrEmpty_useVoteMain (st : Ledger) (col uid tid tx o : String) :
    (UseVote_main st col uid tid tx o).res = none ∨
      (UseVote_main st col uid tid tx o).writes = [] := by
  unfold UseVote_main
  split
  · exact Or.inr rfl
  · split
    · exact Or.inr rfl
    · split
      · exact Or.inr rfl
      · split
        · exact Or.inr rfl
        · split
          · exact Or.inr rfl
          · exact Or.inl rfl
      · exact Or.inr rfl

theorem resOrEmpty_useVotePlain (st : Ledger) (col uid tid tx o : String) :
    (UseVote_plain st col uid tid tx o).res = none ∨
      (UseVote_plain st col uid tid tx o).writes = [] := by
  unfold UseVote_plain
  split
  · exact Or.inr rfl
  · split
    · exact Or.inr rfl
    · split
      · exact Or.inr rfl
      · split
        · exact Or.inr rfl
        · exact Or.inl rfl

theorem resOrEmpty_useAnonVote (st : Ledger) (col : String)
    (hash : AnonVote → String) (v : AnonVote) :
    (UseAnonVote_p1 st col hash v).res = none ∨
      (UseAnonVote_p1 st col hash v).writes = [] := by
  unfold UseAnonVote_p1
  split
  · exact Or.inr rfl
  · split
    · exact Or.inr rfl
    · split
      · exact Or.inr rfl
      · split
        · exact Or.inr rfl
        · exact Or.inl rfl

theorem resOrEmpty_endMain (st : Ledger) (cid tid : String) :
    (EndThread_main st cid tid).res = none ∨
      (EndThread_main st cid tid).writes = [] := by
  unfold EndThread_main
  split
  · exact Or.inr rfl
  · split
    · exact Or.inr rfl
    · split
      · exact Or.inr rfl
      · exact Or.inl rfl

theorem resOrEmpty_endV0 (st : Ledger) (cid tid : String) :
    (EndThread_v0 st cid tid).res = none ∨ (EndThread_v0 st cid tid).writes = [] := by
  unfold EndThread_v0
  split
  · exact Or.inr rfl
  · split
    · exact Or.inr rfl
    · split
      · exact Or.inr rfl
      · exact Or.inl rfl

theorem resOrEmpty_endAnon (st : Ledger) (cid : String) (hash : AnonVote → String)
    (ed : EndData) :
    (EndAnonThread_p1 st cid hash ed).res = none ∨
      (EndAnonThread_p1 st cid hash ed).writes = [] := by
  unfold EndAnonThread_p1
  split
  · exact Or.inr rfl
  · split
    · exact Or.inr rfl
    · split
      · exact Or.inr rfl
      · exact Or.inl rfl

theorem errOfRes {r : OpRes} (hor : r.res = none ∨ r.writes = []) (e : VErr)
    (h : r.res = some e) : r.writes = [] := by
  rcases hor with hn | hw
  · rw [hn] at h
    cases h
  · exact hw

/-- Claim C8 (amended): a failed invocation never changes the
committed ledger, because the platform's commit point applies an
invocation's write set only on success; moreover, in every embedded
operation except the `IssuedVotes`-variant `CreateVote`, every error
return happens before the first write (the error result carries an
empty write trace). -/
theorem C8_no_partial_state :
    (∀ (st : Ledger) (r : OpRes) (e : VErr), r.res = some e → commitOp st r = st) ∧
    (∀ (st : Ledger) (args : List String) (cid : String) (e : VErr),
      (CreateThread st args cid).res = some e → (CreateThread st args cid).writes = []) ∧
    (∀ (st : Ledger) (args : List String) (cid : String) (e : VErr),
      (CreateAnonThread st args cid).res = some e →
        (CreateAnonThread st args cid).writes = []) ∧
    (∀ (st : Ledger) (cid col tx tid uid : String) (e : VErr),
      (CreateVote_main st cid col tx tid uid).res = some e →
        (CreateVote_main st cid col tx tid uid).writes = []) ∧
    (∀ (st : Ledger) (col uid tid tx o : String) (e : VErr),
      (UseVote_main st col uid tid tx o).res = some e →
        (UseVote_main st col uid tid tx o).writes = []) ∧
    (∀ (st : Ledger) (col uid tid tx o : String) (e : VErr),
      (UseVote_plain st col uid tid tx o).res = some e →
        (UseVote_plain st col uid tid tx o).writes = []) ∧
    (∀ (st : Ledger) (col : String) (hash : AnonVote → String) (v : AnonVote) (e : VErr),
      (UseAnonVote_p1 st col hash v).res = some e →
        (UseAnonVote_p1 st col hash v).writes = []) ∧
    (∀ (st : Ledger) (cid tid : String) (e : VErr),
      (EndThread_main st cid tid).res = some e → (EndThread_main st cid tid).writes = []) ∧
    (∀ (st : Ledger) (cid tid : String) (e : VErr),
      (EndThread_v0 st cid tid).res = some e → (EndThread_v0 st cid tid).writes = []) ∧
    (∀ (st : Ledger) (cid : String) (hash : AnonVote → String) (ed : EndData) (e : VErr),
      (EndAnonThread_p1 st cid hash ed).res = some e →
        (EndAnonThread_p1 st cid hash ed).writes = []) := by
  refine ⟨?_, ?_, ?_, ?_, ?_, ?_, ?_, ?_, ?_, ?_⟩
  · intro st r e h
    unfold commitOp
    rw [h]
  · intro st args cid e h
    exact errOfRes (resOrEmpty_createThread st args cid) e h
  · intro st args cid e h
    exact errOfRes (resOrEmpty_createAnonThread st args cid) e h
  · intro st cid col tx tid uid e h
    exact errOfRes (resOrEmpty_createVoteMain st cid col tx tid uid) e h
  · intro st col uid tid tx o e h
    exact errOfRes (resOrEmpty_useVoteMain st col uid tid tx o) e h
  · intro st col uid tid tx o e h
    exact errOfRes (resOrEmpty_useVotePlain st col uid tid tx o) e h
  · intro st col hash v e h
    exact errOfRes (resOrEmpty_useAnonVote st col hash v) e h
  · intro st cid tid e h
    exact errOfRes (resOrEmpty_endMain st cid tid) e h
  · intro st cid tid e h
    exact errOfRes (resOrEmpty_endV0 st cid tid) e h
  · intro st cid hash ed e h
    exact errOfRes (resOrEmpty_endAnon st cid hash ed) e h

/-- Claim C8 witness: the commit point discards a failed invocation's
pending writes, and a concrete failing `CreateThread` has an empty
write trace. -/
theorem C8_no_partial_state_witness :
    commitOp emptyLedger ⟨some VErr.notOpen, [(Key.simple "k", LVal.bytes "b")]⟩ =
      emptyLedger ∧
    (CreateThread emptyLedger [] "alice").writes = [] :=
  ⟨C8_no_partial_state.1 emptyLedger
      ⟨some VErr.notOpen, [(Key.simple "k", LVal.bytes "b")]⟩ VErr.notOpen rfl,
   C8_no_partial_state.2.1 emptyLedger [] "alice" VErr.notEnoughArgs (by decide)⟩

/-- Claim C8 counterexample: the `IssuedVotes`-variant `CreateVote`
writes the token record before validating the issued-votes index, so
on a ledger holding the poll but no index record it returns an error
with a non-empty write trace — the validation failure does not occur
strictly before the first write (the platform's atomic commit still
discards it). -/
theorem C8_counterexample :
    (CreateVote_v0c stV0cNoIdx "alice" "org1" "tx1" "t1" "bob").res =
      some VErr.votesNotFound ∧
    (CreateVote_v0c stV0cNoIdx "alice" "org1" "tx1" "t1" "bob").writes =
      [(Key.composite "vote" ["t1", "tx1", "org1", "bob"], LVal.bytes "vote")] ∧
    (CreateVote_v0c stV0cNoIdx "alice" "org1" "tx1" "t1" "bob").writes ≠ [] ∧
    commitOp stV0cNoIdx (CreateVote_v0c stV0cNoIdx "alice" "org1" "tx1" "t1" "bob") =
      stV0cNoIdx :=
  ⟨by decide, by decide, by decide, rfl⟩

/-! ## CreateThread semantics -/

theorem createThread_occupied (st : Ledger) (a0 tid cat thm dsc : String)
    (opts : List String) (cid : String) (v : LVal)
    (hst : st (Key.simple tid) = some v) :
    CreateThread st (a0 :: tid :: cat :: thm :: dsc :: opts) cid =
      ⟨some VErr.alreadyExist, []⟩ := by
  have hlen : ¬ ((a0 :: tid :: cat :: thm :: dsc :: opts).length < 4) := by
    simp only [List.length_cons]
    omega
  simp only [CreateThread, hlen, hst]
  simp [hst]

theorem createThread_free (st : Ledger) (a0 tid cat thm dsc : String)
    (opts : List String) (cid : String)
    (hst : st (Key.simple tid) = none) :
    CreateThread st (a0 :: tid :: cat :: thm :: dsc :: opts) cid =
      ⟨none, [(Key.simple tid,
               LVal.threadVal ⟨cat, thm, dsc, cid, mkOptions opts, [], "open"⟩)]⟩ := by
  have hlen : ¬ ((a0 :: tid :: cat :: thm :: dsc :: opts).length < 4) := by
    simp only [List.length_cons]
    omega
  simp only [CreateThread, hlen, hst]
  simp [hst]

/-- Claim C9: `CreateThread` fails with the already-exists error
whenever a record is stored at the poll id (for well-formed argument
lists), and otherwise succeeds with a single write of a poll whose
supplied option labels are all initialized to the empty vote list,
whose status is "open" and whose winOptions is empty; creating the
same poll id twice therefore fails the second time. -/
theorem C9_create_poll (st : Ledger) (a0 tid cat thm dsc : String)
    (opts : List String) (cid : String) :
    (st (Key.simple tid) ≠ none →
      (CreateThread st (a0 :: tid :: cat :: thm :: dsc :: opts) cid).res =
        some VErr.alreadyExist) ∧
    ((CreateThread st (a0 :: tid :: cat :: thm :: dsc :: opts) cid).res = none →
      st (Key.simple tid) = none ∧
      (CreateThread st (a0 :: tid :: cat :: thm :: dsc :: opts) cid).writes =
        [(Key.simple tid,
          LVal.threadVal ⟨cat, thm, dsc, cid, mkOptions opts, [], "open"⟩)] ∧
      (∀ o ∈ opts, mapGet (mkOptions opts) o = some []) ∧
      (CreateThread
          (commitOp st (CreateThread st (a0 :: tid :: cat :: thm :: dsc :: opts) cid))
          (a0 :: tid :: cat :: thm :: dsc :: opts) cid).res =
        some VErr.alreadyExist) := by
  cases hst : st (Key.simple tid) with
  | some v =>
    constructor
    · intro _
      rw [createThread_occupied st a0 tid cat thm dsc opts cid v hst]
    · intro h
      rw [createThread_occupied st a0 tid cat thm dsc opts cid v hst] at h
      cases h
  | none =>
    have hfree := createThread_free st a0 tid cat thm dsc opts cid hst
    constructor
    · intro hne
      exact absurd rfl hne
    · intro _
      refine ⟨rfl, by rw [hfree], ?_, ?_⟩
      · intro o ho
        rw [mapGet_mkOptions]
        simp [ho]
      · rw [hfree]
        have hst2 : commitOp st
            (⟨none, [(Key.simple tid,
                      LVal.threadVal ⟨cat, thm, dsc, cid, mkOptions opts, [], "open"⟩)]⟩ :
              OpRes) (Key.simple tid) =
            some (LVal.threadVal ⟨cat, thm, dsc, cid, mkOptions opts, [], "open"⟩) := by
          show (if Key.simple tid = Key.simple tid then
                  some (LVal.threadVal ⟨cat, thm, dsc, cid, mkOptions opts, [], "open"⟩)
                else st (Key.simple tid)) =
              some (LVal.threadVal ⟨cat, thm, dsc, cid, mkOptions opts, [], "open"⟩)
          rw [if_pos rfl]
        rw [createThread_occupied _ a0 tid cat thm dsc opts cid _ hst2]

/-- Claim C9 witness: the occupied case on `stAB` and the free case on
the empty ledger, both instantiating the theorem. -/
theorem C9_create_poll_witness :
    (stAB (Key.simple "t1") ≠ none ∧
      (CreateThread stAB ["f", "t1", "c", "tm", "d", "A"] "alice").res =
        some VErr.alreadyExist) ∧
    (emptyLedger (Key.simple "t2") = none ∧
      (CreateThread emptyLedger ["f", "t2", "c", "tm", "d", "A"] "alice").writes =
        [(Key.simple "t2",
          LVal.threadVal ⟨"c", "tm", "d", "alice", mkOptions ["A"], [], "open"⟩)] ∧
      (∀ o ∈ ["A"], mapGet (mkOptions ["A"]) o = some []) ∧
      (CreateThread
          (commitOp emptyLedger
            (CreateThread emptyLedger ["f", "t2", "c", "tm", "d", "A"] "alice"))
          ["f", "t2", "c", "tm", "d", "A"] "alice").res = some VErr.alreadyExist) :=
  ⟨⟨by decide,
    (C9_create_poll stAB "f" "t1" "c" "tm" "d" ["A"] "alice").1 (by decide)⟩,
   (C9_create_poll emptyLedger "f" "t2" "c" "tm" "d" ["A"] "alice").2 (by decide)⟩

theorem commit_single (st : Ledger) (k : Key) (v : LVal) :
    commitOp st ⟨none, [(k, v)]⟩ k = some v := by
  show (if k = k then some v else st k) = some v
  rw [if_pos rfl]

/-- Claim C6: commit-reveal round trip.  On an open anonymous poll
with no prior commitments, committing the payload
(pollID, tx1, "A", secret1) and then revealing with secrets = [secret1]
and transactionIDs = [tx1] succeeds and extends option "A"'s vote list
by exactly one marker while leaving every other option's list
unchanged; revealing instead with a secret whose candidate hashes
all differ from the stored commitment leaves every option's list
unchanged.  The hash-disagreement hypotheses express collision-freeness
of the commitment hash on the relevant candidate payloads. -/
theorem C6_commit_reveal_roundtrip (st : Ledger) (col cid tid tx1 s1 s2 : String)
    (hash : AnonVote → String) (t : AnonThread)
    (hst : queryAnonThread st tid = some t)
    (hopen : t.status = "open") (hcreator : t.creator = cid)
    (hvotes : t.votes = [])
    (hopt : containsOpt t.options "A" = true)
    (htok : st (Key.composite "vote" [tid, tx1, col]) ≠ none)
    (hcol1 : ∀ kv ∈ t.options, kv.1 ≠ "A" →
      hash ⟨tid, tx1, kv.1, s1⟩ ≠ hash ⟨tid, tx1, "A", s1⟩)
    (hcol2 : ∀ kv ∈ t.options,
      hash ⟨tid, tx1, kv.1, s2⟩ ≠ hash ⟨tid, tx1, "A", s1⟩) :
    (UseAnonVote_p1 st col hash ⟨tid, tx1, "A", s1⟩).res = none ∧
    (EndAnonThread_p1 (commitOp st (UseAnonVote_p1 st col hash ⟨tid, tx1, "A", s1⟩))
        cid hash ⟨tid, [s1], [tx1]⟩).res = none ∧
    (∃ t2 : AnonThread,
      (EndAnonThread_p1 (commitOp st (UseAnonVote_p1 st col hash ⟨tid, tx1, "A", s1⟩))
          cid hash ⟨tid, [s1], [tx1]⟩).writes =
        [(Key.simple tid, LVal.anonThreadVal t2)] ∧
      t2.options = t.options.map (fun kv =>
        if kv.1 = "A" then (kv.1, kv.2 ++ ["vote"]) else kv)) ∧
    (∃ t3 : AnonThread,
      (EndAnonThread_p1 (commitOp st (UseAnonVote_p1 st col hash ⟨tid, tx1, "A", s1⟩))
          cid hash ⟨tid, [s2], [tx1]⟩).writes =
        [(Key.simple tid, LVal.anonThreadVal t3)] ∧
      t3.options = t.options) := by
  have h1 := useAnonP1_eq st col hash ⟨tid, tx1, "A", s1⟩ t hst hopen htok hopt
  have hA1 : commitOp st (UseAnonVote_p1 st col hash ⟨tid, tx1, "A", s1⟩)
      (Key.simple tid) =
      some (LVal.anonThreadVal
        { t with votes := t.votes ++ [hash ⟨tid, tx1, "A", s1⟩] }) := by
    rw [h1]
    exact commit_single st _ _
  have hq2 : queryAnonThread
      (commitOp st (UseAnonVote_p1 st col hash ⟨tid, tx1, "A", s1⟩)) tid =
      some { t with votes := t.votes ++ [hash ⟨tid, tx1, "A", s1⟩] } := by
    unfold queryAnonThread
    rw [hA1]
  have hEnd1 := endAnonP1_eq
    (commitOp st (UseAnonVote_p1 st col hash ⟨tid, tx1, "A", s1⟩)) cid hash
    ⟨tid, [s1], [tx1]⟩ { t with votes := t.votes ++ [hash ⟨tid, tx1, "A", s1⟩] }
    hq2 hcreator hopen
  have hEnd2 := endAnonP1_eq
    (commitOp st (UseAnonVote_p1 st col hash ⟨tid, tx1, "A", s1⟩)) cid hash
    ⟨tid, [s2], [tx1]⟩ { t with votes := t.votes ++ [hash ⟨tid, tx1, "A", s1⟩] }
    hq2 hcreator hopen
  refine ⟨by rw [h1], by rw [hEnd1], ?_, ?_⟩
  · refine ⟨{ t with
        votes := t.votes ++ [hash ⟨tid, tx1, "A", s1⟩],
        options := revealMatch hash tid [tx1] [s1]
          (t.votes ++ [hash ⟨tid, tx1, "A", s1⟩]) t.options,
        winOption := winnerScan (revealMatch hash tid [tx1] [s1]
          (t.votes ++ [hash ⟨tid, tx1, "A", s1⟩]) t.options),
        status := "ended" }, by rw [hEnd1], ?_⟩
    show revealMatch hash tid [tx1] [s1]
        (t.votes ++ [hash ⟨tid, tx1, "A", s1⟩]) t.options =
      t.options.map (fun kv => if kv.1 = "A" then (kv.1, kv.2 ++ ["vote"]) else kv)
    rw [hvotes, List.nil_append, revealMatch_spec]
    apply mapCongrMem
    intro kv hkv
    by_cases hA : kv.1 = "A"
    · simp [totalMatches, txMatches, keyMatches, hA]
    · have hne := hcol1 kv hkv hA
      simp [totalMatches, txMatches, keyMatches, hA, hne]
  · refine ⟨{ t with
        votes := t.votes ++ [hash ⟨tid, tx1, "A", s1⟩],
        options := revealMatch hash tid [tx1] [s2]
          (t.votes ++ [hash ⟨tid, tx1, "A", s1⟩]) t.options,
        winOption := winnerScan (revealMatch hash tid [tx1] [s2]
          (t.votes ++ [hash ⟨tid, tx1, "A", s1⟩]) t.options),
        status := "ended" }, by rw [hEnd2], ?_⟩
    show revealMatch hash tid [tx1] [s2]
        (t.votes ++ [hash ⟨tid, tx1, "A", s1⟩]) t.options = t.options
    rw [hvotes, List.nil_append, revealMatch_spec]
    calc t.options.map (fun kv =>
          (kv.1, kv.2 ++ List.replicate
            (totalMatches hash tid [tx1] [s2] [hash ⟨tid, tx1, "A", s1⟩] kv.1)
            "vote"))
        = t.options.map (fun kv => kv) := by
          apply mapCongrMem
          intro kv hkv
          have hne := hcol2 kv hkv
          simp [totalMatches, txMatches, keyMatches, hne]
      _ = t.options := by simp

/-- Claim C6 witness: the round trip instantiated on the concrete poll
`anonAB` with the concrete collision-free hash `hashDemo`. -/
theorem C6_commit_reveal_roundtrip_witness :
    (UseAnonVote_p1 stAnonAB "org1" hashDemo ⟨"t1", "tx1", "A", "s1"⟩).res = none ∧
    (EndAnonThread_p1
        (commitOp stAnonAB (UseAnonVote_p1 stAnonAB "org1" hashDemo ⟨"t1", "tx1", "A", "s1"⟩))
        "alice" hashDemo ⟨"t1", ["s1"], ["tx1"]⟩).res = none ∧
    (∃ t2 : AnonThread,
      (EndAnonThread_p1
          (commitOp stAnonAB (UseAnonVote_p1 stAnonAB "org1" hashDemo ⟨"t1", "tx1", "A", "s1"⟩))
          "alice" hashDemo ⟨"t1", ["s1"], ["tx1"]⟩).writes =
        [(Key.simple "t1", LVal.anonThreadVal t2)] ∧
      t2.options = anonAB.options.map (fun kv =>
        if kv.1 = "A" then (kv.1, kv.2 ++ ["vote"]) else kv)) ∧
    (∃ t3 : AnonThread,
      (EndAnonThread_p1
          (commitOp stAnonAB (UseAnonVote_p1 stAnonAB "org1" hashDemo ⟨"t1", "tx1", "A", "s1"⟩))
          "alice" hashDemo ⟨"t1", ["s2"], ["tx1"]⟩).writes =
        [(Key.simple "t1", LVal.anonThreadVal t3)] ∧
      t3.options = anonAB.options) :=
  C6_commit_reveal_roundtrip stAnonAB "org1" "alice" "t1" "tx1" "s1" "s2" hashDemo anonAB
    (by decide) (by decide) (by decide) (by decide) (by decide) (by decide)
    (by decide) (by decide)
